import Mathlib

/-!
Verification of the `@grim/translator` batch translation core.

The repository sources under verification are `src/packages/translator/src/consts.ts`
(batch-size constant, language table, `buildSystemPrompt`, `buildTranslationPrompt`)
and the test suite `src/packages/translator/test/translator.test.ts`.  The module
`translator.ts` itself (the orchestrator `translateMessages`, the retry controller,
the response parser and the `RateLimitError` type) is not part of the sources, so
those pieces are modelled from the design document, with every behavioural detail
that the test suite pins down taken from the test suite.

The embedding is executable end to end: a small JSON value type and a fuel-based
JSON reader stand in for `JSON.parse`, strings are Lean strings, the model
invocation capability is a function from the call index and the prompt to either
a response text or a thrown error value.
-/

/-- A JSON value, as produced by `JSON.parse`.  Numbers keep their source lexeme:
no claim inspects a numeric value, only the shape (object / array / primitive) of
the parsed result matters. -/
inductive Json where
  | obj (fields : List (String × Json))
  | arr (items : List Json)
  | str (value : String)
  | num (lexeme : String)
  | bool (value : Bool)
  | null

/-- Whitespace characters that `JSON.parse` skips between tokens. -/
def isJsonWs (c : Char) : Bool := c = ' ' || c = '\t' || c = '\n' || c = '\r'

/-- Drop leading JSON whitespace. -/
def skipJsonWs (l : List Char) : List Char := l.dropWhile isJsonWs

/-- ASCII decimal digit test. -/
def isDigitCh (c : Char) : Bool := 48 ≤ c.toNat && c.toNat ≤ 57

/-- Value of one hexadecimal digit, if the character is one (48..57 are the
digits, 97..102 lower-case a..f, 65..70 upper-case A..F). -/
def hexDigitVal (c : Char) : Option Nat :=
  let n := c.toNat
  if 48 ≤ n && n ≤ 57 then some (n - 48)
  else if 97 ≤ n && n ≤ 102 then some (n - 87)
  else if 65 ≤ n && n ≤ 70 then some (n - 55)
  else none

/-- Decode one escape character of a JSON string (the part after the backslash,
escapes of the form `uXXXX` are handled separately). -/
def jsonUnescape (c : Char) : Option Char :=
  if c = '"' then some '"'
  else if c = '\\' then some '\\'
  else if c = '/' then some '/'
  else if c = 'b' then some (Char.ofNat 8)
  else if c = 'f' then some (Char.ofNat 12)
  else if c = 'n' then some '\n'
  else if c = 'r' then some '\r'
  else if c = 't' then some '\t'
  else none

/-- Read the body of a JSON string after the opening quote; returns the decoded
content and the input remaining after the closing quote.  `JSON.parse` rejects
raw control characters inside strings, and so does this reader. -/
def readStringBody : List Char → Option (List Char × List Char)
  | [] => none
  | c :: rest =>
    if c = '"' then some ([], rest)
    else if c = '\\' then
      match rest with
      | [] => none
      | e :: rest2 =>
        if e = 'u' then
          match rest2 with
          | h1 :: h2 :: h3 :: h4 :: rest3 =>
            match hexDigitVal h1, hexDigitVal h2, hexDigitVal h3, hexDigitVal h4 with
            | some a, some b, some c3, some d =>
              match readStringBody rest3 with
              | some (s, r) => some (Char.ofNat (((a * 16 + b) * 16 + c3) * 16 + d) :: s, r)
              | none => none
            | _, _, _, _ => none
          | _ => none
        else
          match jsonUnescape e with
          | some ch =>
            match readStringBody rest2 with
            | some (s, r) => some (ch :: s, r)
            | none => none
          | none => none
    else if c.toNat < 32 then none
    else
      match readStringBody rest with
      | some (s, r) => some (c :: s, r)
      | none => none

/-- Read a JSON number (sign, integer part without leading zeros, optional
fraction, optional exponent), returning its lexeme and the remaining input. -/
def readNumber (l : List Char) : Option (List Char × List Char) :=
  let (sign, l1) := if l.head? = some '-' then (['-'], l.tail) else ([], l)
  let intPart := l1.takeWhile isDigitCh
  let l2 := l1.dropWhile isDigitCh
  if intPart.isEmpty then none
  else if intPart.head? = some '0' && intPart.length > 1 then none
  else
    let (fracPart, l3) :=
      if l2.head? = some '.' then
        let ds := l2.tail.takeWhile isDigitCh
        if ds.isEmpty then ([], l2) else ('.' :: ds, l2.tail.dropWhile isDigitCh)
      else ([], l2)
    if l2.head? = some '.' && fracPart.isEmpty then none
    else
      let expRes : Option (List Char × List Char) :=
        if l3.head? = some 'e' || l3.head? = some 'E' then
          let afterE := l3.tail
          let (sgn, l5) :=
            if afterE.head? = some '+' || afterE.head? = some '-' then
              (afterE.take 1, afterE.tail)
            else ([], afterE)
          let ds := l5.takeWhile isDigitCh
          if ds.isEmpty then none
          else some (l3.take 1 ++ sgn ++ ds, l5.dropWhile isDigitCh)
        else some ([], l3)
      match expRes with
      | none => none
      | some (ep, rest) => some (sign ++ intPart ++ fracPart ++ ep, rest)

mutual

/-- Read one JSON value; fuel-based so that totality is structural.  Returns the
value and the remaining input. -/
def readJsonValue : Nat → List Char → Option (Json × List Char)
  | 0, _ => none
  | Nat.succ fuel, l =>
    match skipJsonWs l with
    | [] => none
    | c :: rest =>
      if c = '"' then
        match readStringBody rest with
        | some (s, r) => some (Json.str (String.mk s), r)
        | none => none
      else if c = '\x7b' then
        match skipJsonWs rest with
        | [] => none
        | c2 :: rest2 =>
          if c2 = '\x7d' then some (Json.obj [], rest2)
          else
            match readJsonFields fuel (c2 :: rest2) with
            | some (fs, r) => some (Json.obj fs, r)
            | none => none
      else if c = '[' then
        match skipJsonWs rest with
        | [] => none
        | c2 :: rest2 =>
          if c2 = ']' then some (Json.arr [], rest2)
          else
            match readJsonElems fuel (c2 :: rest2) with
            | some (es, r) => some (Json.arr es, r)
            | none => none
      else if c = 't' then
        match rest with
        | 'r' :: 'u' :: 'e' :: r => some (Json.bool true, r)
        | _ => none
      else if c = 'f' then
        match rest with
        | 'a' :: 'l' :: 's' :: 'e' :: r => some (Json.bool false, r)
        | _ => none
      else if c = 'n' then
        match rest with
        | 'u' :: 'l' :: 'l' :: r => some (Json.null, r)
        | _ => none
      else if c = '-' || isDigitCh c then
        match readNumber (c :: rest) with
        | some (lex, r) => some (Json.num (String.mk lex), r)
        | none => none
      else none

/-- Read the members of a non-empty JSON object, up to and including the closing
brace. -/
def readJsonFields : Nat → List Char → Option (List (String × Json) × List Char)
  | 0, _ => none
  | Nat.succ fuel, l =>
    match skipJsonWs l with
    | [] => none
    | c :: rest =>
      if c = '"' then
        match readStringBody rest with
        | none => none
        | some (key, r1) =>
          match skipJsonWs r1 with
          | ':' :: r2 =>
            match readJsonValue fuel r2 with
            | none => none
            | some (v, r3) =>
              match skipJsonWs r3 with
              | ',' :: r4 =>
                match readJsonFields fuel r4 with
                | some (fs, r5) => some ((String.mk key, v) :: fs, r5)
                | none => none
              | c2 :: r4 =>
                if c2 = '\x7d' then some ([(String.mk key, v)], r4) else none
              | [] => none
          | _ => none
      else none

/-- Read the elements of a non-empty JSON array, up to and including the closing
bracket. -/
def readJsonElems : Nat → List Char → Option (List Json × List Char)
  | 0, _ => none
  | Nat.succ fuel, l =>
    match readJsonValue fuel l with
    | none => none
    | some (v, r) =>
      match skipJsonWs r with
      | ',' :: r2 =>
        match readJsonElems fuel r2 with
        | some (es, r3) => some (v :: es, r3)
        | none => none
      | ']' :: r2 => some ([v], r2)
      | _ => none

end

/-- The embedding of `JSON.parse`: read one value and require that nothing but
whitespace follows it; any failure is `none` (the `try`/`catch` around
`JSON.parse` in the translator maps an exception to a failed attempt). -/
def jsonParse (s : String) : Option Json :=
  match readJsonValue (2 * s.length + 2) s.data with
  | some (v, rest) => if (skipJsonWs rest).isEmpty then some v else none
  | none => none

/-- Substring search on character lists: `true` iff `needle` occurs contiguously
inside `hay`. -/
def listContainsSub (needle : List Char) : List Char → Bool
  | [] => needle.isEmpty
  | c :: rest => needle.isPrefixOf (c :: rest) || listContainsSub needle rest

/-- `containsSubstr hay pat` is the embedding of the JavaScript
`hay.includes(pat)` substring test. -/
def containsSubstr (hay pat : String) : Bool := listContainsSub pat.data hay.data

/-- From `src/packages/translator/src/consts.ts`: the number of messages to
translate in each batch, as declared there. -/
def TRANSLATION_BATCH_SIZE : Nat := 100

/-- From `src/packages/translator/src/consts.ts`: mapping of language codes to
human-readable language names, in declaration order. -/
def LANGUAGE_NAMES : List (String × String) :=
  [("de", "German"), ("fr", "French"), ("es", "Spanish"), ("it", "Italian"),
   ("pt", "Portuguese"), ("nl", "Dutch"), ("pl", "Polish"), ("ja", "Japanese"),
   ("zh", "Chinese (Simplified)"), ("ko", "Korean"), ("ru", "Russian"),
   ("tr", "Turkish"), ("ar", "Arabic")]

/-- The resolution `LANGUAGE_NAMES[targetLanguage] ?? targetLanguage` performed
by `buildSystemPrompt`: a known code maps to its display name, any other code is
returned unchanged. -/
def languageName (code : String) : String := (List.lookup code LANGUAGE_NAMES).getD code

/-- The fixed text of the system prompt before the interpolated language name
(note the trailing space after the first sentence, present in the source). -/
def SYSTEM_PROMPT_PRE : String :=
  "You are a professional translator specializing in software localization. \nTranslate the following UI text from English to "

/-- The fixed text of the system prompt after the interpolated language name. -/
def SYSTEM_PROMPT_POST : String :=
  ".\n\nImportant guidelines:\n- Preserve any placeholders like \x7bname\x7d, \x7bcount\x7d, \x7b\x7bvariable\x7d\x7d, etc.\n- Keep the same tone and formality level\n- Use natural, idiomatic expressions in the target language\n- Maintain any HTML tags or markdown formatting\n- Do not add or remove content, only translate"

/-- The system prompt template with the language name filled in and no context
section appended yet. -/
def systemPromptBase (targetLanguage : String) : String :=
  SYSTEM_PROMPT_PRE ++ languageName targetLanguage ++ SYSTEM_PROMPT_POST

/-- The label and separator of the product-context section. -/
def CONTEXT_HEADER : String := "\n\nProduct context for better translations:\n"

/-- From `src/packages/translator/src/prompts.ts` (second unit of the consts
file): builds the system prompt; the context section is appended only when
`context` is truthy, that is, a non-empty string. -/
def buildSystemPrompt (targetLanguage context : String) : String :=
  if context = "" then systemPromptBase targetLanguage
  else systemPromptBase targetLanguage ++ CONTEXT_HEADER ++ context

/-- One hexadecimal digit character, lower case. -/
def hexDigitCh (n : Nat) : Char :=
  if n < 10 then Char.ofNat (48 + n) else Char.ofNat (87 + (n % 16))

/-- Escape one character the way `JSON.stringify` escapes string contents. -/
def jsonEscapeChar (c : Char) : List Char :=
  if c = '"' then ['\\', '"']
  else if c = '\\' then ['\\', '\\']
  else if c = '\n' then ['\\', 'n']
  else if c = '\r' then ['\\', 'r']
  else if c = '\t' then ['\\', 't']
  else if c = Char.ofNat 8 then ['\\', 'b']
  else if c = Char.ofNat 12 then ['\\', 'f']
  else if c.toNat < 32 then
    ['\\', 'u', '0', '0', hexDigitCh (c.toNat / 16), hexDigitCh (c.toNat % 16)]
  else [c]

/-- String escaping of `JSON.stringify`. -/
def jsonEscape (s : String) : String := String.mk (s.data.flatMap jsonEscapeChar)

/-- The embedding of `JSON.stringify(Object.fromEntries(batch), null, 2)`:
the batch rendered as a two-space-indented JSON object, keys in batch order. -/
def jsonStringifyPretty (entries : List (String × String)) : String :=
  if entries.isEmpty then "\x7b\x7d"
  else
    "\x7b\n" ++
      String.intercalate ",\n"
        (entries.map (fun kv => "  \"" ++ jsonEscape kv.1 ++ "\": \"" ++ jsonEscape kv.2 ++ "\"")) ++
      "\n\x7d"

/-- From `src/packages/translator/src/prompts.ts`: the full prompt for one
batch, the system prompt followed by the instruction and the serialized batch. -/
def buildTranslationPrompt (systemPrompt : String) (batch : List (String × String)) : String :=
  systemPrompt ++ "\n\nTranslate each of the following messages:\n\n" ++ jsonStringifyPretty batch

/-- The suffix of `s.data` starting at the first opening brace (empty when there
is none). -/
def fromFirstBrace (l : List Char) : List Char := l.dropWhile (fun c => c ≠ '\x7b')

/-- The prefix of `l` up to and including the last closing brace (empty when
there is none). -/
def keepToLastBrace (l : List Char) : List Char :=
  (l.reverse.dropWhile (fun c => c ≠ '\x7d')).reverse

/-- The brace-delimited portion of a response text, from the first opening brace
through the last closing brace, when both exist in that order; this is the text
the translator hands to the second `JSON.parse` attempt. -/
def extractJsonSlice (s : String) : Option String :=
  let sub := keepToLastBrace (fromFirstBrace s.data)
  if sub.isEmpty then none else some (String.mk sub)

/-- The identity fallback: the batch itself as the result mapping, source texts
as the values. -/
def identityFallback (batch : List (String × String)) : List (String × Json) :=
  batch.map (fun kv => (kv.1, Json.str kv.2))

/-- The fields of a parse result that is a plain object; `none` when the parse
failed or produced an array or a primitive. -/
def objFields? : Option Json → Option (List (String × Json))
  | some (Json.obj fields) => some fields
  | _ => none

/-- Modelled from the spec: the Response Parser of the missing `translator.ts`
(design document section 4.4).  Attempt one parses the whole text and accepts a
plain object only; on failure the second attempt parses embedded structured data
and accepts a plain object only; otherwise the batch is returned unchanged.  The
second attempt is the one place where the spec text and the repository tests
disagree: the test named "translateMessages extracts JSON from response with
surrounding text" feeds prose both before and after the object, so the parsed
region must stop at the last closing brace rather than run to the end of the
text, and the model follows the tests. -/
def parseTranslationResponse (text : String) (batch : List (String × String)) :
    List (String × Json) :=
  match objFields? (jsonParse text) with
  | some fields => fields
  | none =>
    match extractJsonSlice text with
    | some sub =>
      match objFields? (jsonParse sub) with
      | some fields => fields
      | none => identityFallback batch
    | none => identityFallback batch

/-- The suffix of the text starting at the first opening brace, as a string. -/
def suffixFromFirstBrace (s : String) : Option String :=
  let sub := fromFirstBrace s.data
  if sub.isEmpty then none else some (String.mk sub)

/-- The Response Parser exactly as the claim words it (second attempt parses the
suffix of the text starting at the first opening brace, to the end of the text);
kept separate so the two readings can be compared. -/
def claimedParseTranslationResponse (text : String) (batch : List (String × String)) :
    List (String × Json) :=
  match objFields? (jsonParse text) with
  | some fields => fields
  | none =>
    match suffixFromFirstBrace text with
    | some sub =>
      match objFields? (jsonParse sub) with
      | some fields => fields
      | none => identityFallback batch
    | none => identityFallback batch

/-- A thrown JavaScript error value: a name (the constructor tag) and a message. -/
structure JsError where
  name : String
  message : String
deriving DecidableEq

/-- Modelled from the spec: the distinguished `RateLimitError` of the missing
`translator.ts`, with its fixed message and its stable identifying name, as the
design document section 6 and the tests
"translateMessages throws RateLimitError after max retries exceeded" and
"translateMessages RateLimitError has correct name property" require. -/
def RateLimitError : JsError :=
  { name := "RateLimitError",
    message := "Rate limit exceeded. Maximum retry attempts reached." }

/-- The embedding of `message.toLowerCase()`: lower-case every character (the
indicator patterns are ASCII, where the JavaScript and Lean casings agree). -/
def toLowerStr (s : String) : String := String.mk (s.data.map Char.toLower)

/-- Modelled from the spec: the rate-limit classifier of the missing
`translator.ts` (design document section 4.5): an error is retryable exactly
when its lower-cased message contains one of the four indicators as a
substring. -/
def isRateLimitError (message : String) : Bool :=
  let m := toLowerStr message
  containsSubstr m "429" || containsSubstr m "rate limit" ||
    containsSubstr m "resource exhausted" || containsSubstr m "quota"

/-- Modelled from the spec: the attempt budget of the retry controller, three
total attempts (one initial call and two retries). -/
def MAX_ATTEMPTS : Nat := 3

/-- The model invocation capability: given the index of the call (a test-style
instrumentation counter) and the prompt, either return a response text or throw. -/
def Invoker : Type := Nat → String → Except JsError String

/-- Modelled from the spec: the retry controller of the missing `translator.ts`
(design document section 4.5).  `n` is the number of invocations made so far and
the second component of the result is that counter after this unit of work; the
backoff delay between attempts has no observable effect in this model and is
omitted.  A rate-limit-classified failure consumes an attempt and retries; when
the budget is exhausted the distinguished `RateLimitError` is thrown; any other
failure is rethrown unchanged at once. -/
def invokeWithRetry (invoke : Invoker) (prompt : String) :
    Nat → Nat → Except JsError String × Nat
  | n, 0 => (Except.error RateLimitError, n)
  | n, Nat.succ remaining =>
    match invoke n prompt with
    | Except.ok text => (Except.ok text, n + 1)
    | Except.error e =>
      if isRateLimitError e.message then invokeWithRetry invoke prompt (n + 1) remaining
      else (Except.error e, n + 1)

/-- Split a list into consecutive chunks; the fuel is the length of the list, so
the recursion is structural.  With a positive chunk size the fuel is never
exhausted. -/
def chunkGo (B : Nat) : Nat → List α → List (List α)
  | 0, _ => []
  | Nat.succ _, [] => []
  | Nat.succ fuel, l => l.take B :: chunkGo B fuel (l.drop B)

/-- Modelled from the spec: the Batch Partitioner (design document section 4.3),
consecutive chunks of at most `B` entries in input order. -/
def chunkList (B : Nat) (l : List α) : List (List α) := chunkGo B l.length l

/-- Modelled from the spec: the effective batch size of the missing
`translator.ts`.  The repository tests pin it to 10: the test
"translateMessages processes large message sets in batches" requires 25 messages
to make exactly 3 model calls, and the progress test requires 15 messages to
report 10 of 15 and then 15 of 15.  Note that `TRANSLATION_BATCH_SIZE` declared
in `consts.ts` is 100, which those tests contradict. -/
def BATCH_SIZE : Nat := 10

/-- `true` iff the key already occurs in the accumulated result object. -/
def keysContain (l : List (String × Json)) (k : String) : Bool := l.any (fun p => p.1 == k)

/-- Assign one key of a JavaScript object: overwrite in place when the key
exists, append otherwise. -/
def upsertOne (acc : List (String × Json)) (kv : String × Json) : List (String × Json) :=
  if keysContain acc kv.1 then acc.map (fun p => if p.1 == kv.1 then (p.1, kv.2) else p)
  else acc ++ [kv]

/-- Merge a batch result object into the accumulated result object, with
JavaScript object-assignment semantics. -/
def mergeJs (acc entries : List (String × Json)) : List (String × Json) :=
  entries.foldl upsertOne acc

/-- The observable outcome of one `translateMessages` call: the returned mapping
or the thrown error, the number of invocations of the model capability, and the
sequence of progress callback events, each a pair of current and total. -/
structure RunOut where
  result : Except JsError (List (String × Json))
  calls : Nat
  progress : List (Nat × Nat)

/-- Modelled from the spec: the per-batch loop of the Translation Orchestrator
(design document section 4.6).  Batches are processed in order; each one is
prompted, invoked through the retry controller, parsed with this batch as the
fallback, merged, and reported to the progress callback; the first error aborts
everything and discards the partial result. -/
def processBatches (invoke : Invoker) (systemPrompt : String) (total : Nat) :
    List (List (String × String)) → List (String × Json) → Nat → Nat →
      List (Nat × Nat) → RunOut
  | [], acc, _, n, prog => ⟨Except.ok acc, n, prog⟩
  | b :: bs, acc, done, n, prog =>
    match invokeWithRetry invoke (buildTranslationPrompt systemPrompt b) n MAX_ATTEMPTS with
    | (Except.error e, n1) => ⟨Except.error e, n1, prog⟩
    | (Except.ok text, n1) =>
      processBatches invoke systemPrompt total bs
        (mergeJs acc (parseTranslationResponse text b)) (done + b.length) n1
        (prog ++ [(done + b.length, total)])

/-- Modelled from the spec: `translateMessages` of the missing `translator.ts`
(design document section 4.6), parametrized by the batch size.  An empty message
map short-circuits to an empty result with no invocation; otherwise the system
prompt is built once and the batches are processed sequentially. -/
def translateMessagesWith (B : Nat) (messages : List (String × String))
    (targetLanguage context : String) (invoke : Invoker) : RunOut :=
  if messages.isEmpty then ⟨Except.ok [], 0, []⟩
  else
    let systemPrompt := buildSystemPrompt targetLanguage context
    processBatches invoke systemPrompt messages.length (chunkList B messages) [] 0 0 []

/-- `translateMessages` at the effective batch size. -/
def translateMessages (messages : List (String × String))
    (targetLanguage context : String) (invoke : Invoker) : RunOut :=
  translateMessagesWith BATCH_SIZE messages targetLanguage context invoke

/-- Substring search agrees with the infix relation on character lists. -/
theorem listContainsSub_iff (n : List Char) :
    ∀ h : List Char, listContainsSub n h = true ↔ n <:+: h := by
  intro h
  induction h with
  | nil =>
    simp [listContainsSub]
  | cons c rest ih =>
    simp only [listContainsSub, Bool.or_eq_true, List.isPrefixOf_iff_prefix, ih,
      List.infix_cons_iff]

/-- Any explicit decomposition of the text around the pattern certifies the
substring test. -/
theorem containsSubstr_of_split (s pat : String) (pre suf : List Char)
    (h : s.data = pre ++ pat.data ++ suf) : containsSubstr s pat = true := by
  unfold containsSubstr
  rw [listContainsSub_iff, h]
  exact List.infix_append pre pat.data suf

/-- The fuel argument of `chunkGo` is irrelevant once it covers the length of
the list, provided the chunk size is positive. -/
theorem chunkGo_fuel_irrel {α : Type} (B : Nat) (hB : 0 < B) :
    ∀ (f g : Nat) (l : List α), l.length ≤ f → l.length ≤ g →
      chunkGo B f l = chunkGo B g l := by
  intro f
  induction f with
  | zero =>
    intro g l hf _
    have : l = [] := List.eq_nil_of_length_eq_zero (Nat.le_zero.mp hf)
    subst this
    cases g <;> rfl
  | succ f ih =>
    intro g l hf hg
    cases l with
    | nil => cases g <;> rfl
    | cons x xs =>
      cases g with
      | zero => simp at hg
      | succ g =>
        show (x :: xs).take B :: chunkGo B f ((x :: xs).drop B) =
          (x :: xs).take B :: chunkGo B g ((x :: xs).drop B)
        have hd : ((x :: xs).drop B).length ≤ xs.length := by
          rw [List.length_drop]
          simp only [List.length_cons]
          omega
        have hxf : xs.length ≤ f := Nat.succ_le_succ_iff.mp (by simpa using hf)
        have hxg : xs.length ≤ g := Nat.succ_le_succ_iff.mp (by simpa using hg)
        rw [ih g ((x :: xs).drop B) (le_trans hd hxf) (le_trans hd hxg)]

/-- Unfolding equation of the partitioner on a non-empty list. -/
theorem chunkList_cons {α : Type} (B : Nat) (hB : 0 < B) (l : List α) (hl : l ≠ []) :
    chunkList B l = l.take B :: chunkList B (l.drop B) := by
  cases l with
  | nil => exact absurd rfl hl
  | cons x xs =>
    show chunkGo B (x :: xs).length (x :: xs) = _
    have : (x :: xs).length = xs.length + 1 := rfl
    rw [this]
    show (x :: xs).take B :: chunkGo B xs.length ((x :: xs).drop B) = _
    have hd : ((x :: xs).drop B).length ≤ xs.length := by
      rw [List.length_drop]; simp only [List.length_cons]; omega
    rw [chunkGo_fuel_irrel B hB xs.length ((x :: xs).drop B).length ((x :: xs).drop B) hd le_rfl]
    rfl

/-- The batches concatenate back to the input: every entry is covered exactly
once, in input order. -/
theorem chunkList_flatten {α : Type} (B : Nat) (hB : 0 < B) (l : List α) :
    (chunkList B l).flatten = l := by
  suffices h : ∀ (n : Nat) (l : List α), l.length ≤ n → (chunkList B l).flatten = l from
    h l.length l le_rfl
  intro n
  induction n with
  | zero =>
    intro l hl
    have : l = [] := List.eq_nil_of_length_eq_zero (Nat.le_zero.mp hl)
    subst this; rfl
  | succ n ih =>
    intro l hl
    by_cases hn : l = []
    · subst hn; rfl
    · rw [chunkList_cons B hB l hn, List.flatten_cons,
        ih (l.drop B) (by rw [List.length_drop]; omega)]
      exact List.take_append_drop B l

/-- The number of batches is the length of the input divided by the batch size,
rounded up. -/
theorem chunkList_length {α : Type} (B : Nat) (hB : 0 < B) (l : List α) :
    (chunkList B l).length = (l.length + B - 1) / B := by
  suffices h : ∀ (n : Nat) (l : List α), l.length ≤ n →
      (chunkList B l).length = (l.length + B - 1) / B from h l.length l le_rfl
  intro n
  induction n with
  | zero =>
    intro l hl
    have : l = [] := List.eq_nil_of_length_eq_zero (Nat.le_zero.mp hl)
    subst this
    show (0 : Nat) = (0 + B - 1) / B
    rw [Nat.zero_add, Nat.div_eq_of_lt (by omega)]
  | succ n ih =>
    intro l hl
    by_cases hn : l = []
    · subst hn
      show (0 : Nat) = (0 + B - 1) / B
      rw [Nat.zero_add, Nat.div_eq_of_lt (by omega)]
    · have hpos : 0 < l.length := List.length_pos.mpr hn
      rw [chunkList_cons B hB l hn, List.length_cons,
        ih (l.drop B) (by rw [List.length_drop]; omega), List.length_drop]
      by_cases hle : B ≤ l.length
      · have h1 : l.length + B - 1 = (l.length - B + B - 1) + B := by omega
        rw [h1, Nat.add_div_right _ hB]
      · have h2 : l.length - B = 0 := by omega
        rw [h2]
        have h3 : l.length + B - 1 = (l.length - 1) + B := by omega
        rw [h3, Nat.add_div_right _ hB, Nat.div_eq_of_lt (by omega),
          Nat.div_eq_of_lt (by omega)]

/-- Every batch has at most `B` entries. -/
theorem chunkList_size_le {α : Type} (B : Nat) (hB : 0 < B) (l : List α) :
    ∀ b ∈ chunkList B l, b.length ≤ B := by
  suffices h : ∀ (n : Nat) (l : List α), l.length ≤ n →
      ∀ b ∈ chunkList B l, b.length ≤ B from h l.length l le_rfl
  intro n
  induction n with
  | zero =>
    intro l hl b hb
    have : l = [] := List.eq_nil_of_length_eq_zero (Nat.le_zero.mp hl)
    subst this; simp [chunkList, chunkGo] at hb
  | succ n ih =>
    intro l hl b hb
    by_cases hn : l = []
    · subst hn; simp [chunkList, chunkGo] at hb
    · rw [chunkList_cons B hB l hn] at hb
      rcases List.mem_cons.mp hb with h | h
      · subst h; rw [List.length_take]; omega
      · exact ih (l.drop B) (by rw [List.length_drop]; omega) b h

/-- No batch is empty (for a positive batch size). -/
theorem chunkList_ne_nil {α : Type} (B : Nat) (hB : 0 < B) (l : List α) :
    ∀ b ∈ chunkList B l, b ≠ [] := by
  suffices h : ∀ (n : Nat) (l : List α), l.length ≤ n →
      ∀ b ∈ chunkList B l, b ≠ [] from h l.length l le_rfl
  intro n
  induction n with
  | zero =>
    intro l hl b hb
    have : l = [] := List.eq_nil_of_length_eq_zero (Nat.le_zero.mp hl)
    subst this; simp [chunkList, chunkGo] at hb
  | succ n ih =>
    intro l hl b hb
    by_cases hn : l = []
    · subst hn; simp [chunkList, chunkGo] at hb
    · rw [chunkList_cons B hB l hn] at hb
      rcases List.mem_cons.mp hb with h | h
      · subst h
        intro hnil
        rcases List.take_eq_nil_iff.mp hnil with h0 | h0
        · omega
        · exact hn h0
      · exact ih (l.drop B) (by rw [List.length_drop]; omega) b h

/-- Every batch except possibly the last has exactly `B` entries. -/
theorem chunkList_dropLast_size {α : Type} (B : Nat) (hB : 0 < B) (l : List α) :
    ∀ b ∈ (chunkList B l).dropLast, b.length = B := by
  suffices h : ∀ (n : Nat) (l : List α), l.length ≤ n →
      ∀ b ∈ (chunkList B l).dropLast, b.length = B from h l.length l le_rfl
  intro n
  induction n with
  | zero =>
    intro l hl b hb
    have : l = [] := List.eq_nil_of_length_eq_zero (Nat.le_zero.mp hl)
    subst this; simp [chunkList, chunkGo] at hb
  | succ n ih =>
    intro l hl b hb
    by_cases hn : l = []
    · subst hn; simp [chunkList, chunkGo] at hb
    · rw [chunkList_cons B hB l hn] at hb
      by_cases hrest : chunkList B (l.drop B) = []
      · rw [hrest] at hb; simp at hb
      · rw [List.dropLast_cons_of_ne_nil hrest] at hb
        rcases List.mem_cons.mp hb with h | h
        · subst h
          have hBlt : B ≤ l.length := by
            by_contra hc
            have : l.drop B = [] := List.drop_eq_nil_of_le (by omega)
            rw [this] at hrest
            exact hrest rfl
          rw [List.length_take]; omega
        · exact ih (l.drop B) (by rw [List.length_drop]; omega) b h

/-- A non-empty input that fits in one batch gives exactly one batch, the whole
input. -/
theorem chunkList_single {α : Type} (B : Nat) (hB : 0 < B) (l : List α)
    (hl : l ≠ []) (hle : l.length ≤ B) : chunkList B l = [l] := by
  rw [chunkList_cons B hB l hl, List.take_of_length_le hle, List.drop_eq_nil_of_le hle]
  rfl

/-- Assigning one key of a JavaScript object makes its key set the union of the
old key set and that key. -/
theorem mem_map_fst_upsertOne (acc : List (String × Json)) (kv : String × Json) (k : String) :
    k ∈ (upsertOne acc kv).map Prod.fst ↔ k ∈ acc.map Prod.fst ∨ k = kv.1 := by
  unfold upsertOne
  by_cases hc : keysContain acc kv.1 = true
  · rw [if_pos hc]
    have hmem : kv.1 ∈ acc.map Prod.fst := by
      rcases List.any_eq_true.mp hc with ⟨p, hp, hpk⟩
      rw [List.mem_map]
      exact ⟨p, hp, (beq_iff_eq.mp hpk)⟩
    have hfst : (acc.map (fun p => if p.1 == kv.1 then (p.1, kv.2) else p)).map Prod.fst =
        acc.map Prod.fst := by
      rw [List.map_map]
      apply List.map_congr_left
      intro p _
      by_cases h : p.1 = kv.1
      · simp [h]
      · simp [h]
    rw [hfst]
    constructor
    · exact Or.inl
    · rintro (h | h)
      · exact h
      · rw [h]; exact hmem
  · rw [if_neg hc]
    simp

/-- Merging a batch result into the accumulated object makes the key set the
union of the two key sets. -/
theorem mem_map_fst_mergeJs (entries : List (String × Json)) :
    ∀ (acc : List (String × Json)) (k : String),
      k ∈ (mergeJs acc entries).map Prod.fst ↔
        k ∈ acc.map Prod.fst ∨ k ∈ entries.map Prod.fst := by
  induction entries with
  | nil => intro acc k; simp [mergeJs]
  | cons e es ih =>
    intro acc k
    have hstep : mergeJs acc (e :: es) = mergeJs (upsertOne acc e) es := rfl
    rw [hstep, ih, mem_map_fst_upsertOne]
    simp only [List.map_cons, List.mem_cons]
    tauto

/-- Equation of the retry controller on a successful invocation. -/
theorem invokeWithRetry_ok_eq (invoke : Invoker) (prompt : String) (n rem : Nat) (t : String)
    (hc : invoke n prompt = Except.ok t) :
    invokeWithRetry invoke prompt n (Nat.succ rem) = (Except.ok t, n + 1) := by
  unfold invokeWithRetry
  rw [hc]

/-- Equation of the retry controller on a rate-limit-classified failure. -/
theorem invokeWithRetry_rl_eq (invoke : Invoker) (prompt : String) (n rem : Nat) (e : JsError)
    (hc : invoke n prompt = Except.error e) (hr : isRateLimitError e.message = true) :
    invokeWithRetry invoke prompt n (Nat.succ rem) = invokeWithRetry invoke prompt (n + 1) rem := by
  conv_lhs => unfold invokeWithRetry
  rw [hc]
  simp [hr]

/-- Equation of the retry controller on a failure that is not rate-limit
classified. -/
theorem invokeWithRetry_fatal_eq (invoke : Invoker) (prompt : String) (n rem : Nat) (e : JsError)
    (hc : invoke n prompt = Except.error e) (hr : isRateLimitError e.message = false) :
    invokeWithRetry invoke prompt n (Nat.succ rem) = (Except.error e, n + 1) := by
  unfold invokeWithRetry
  rw [hc]
  simp [hr]

/-- Equation of the batch loop when the retry controller fails on the first
batch. -/
theorem processBatches_cons_err (invoke : Invoker) (sys : String) (total : Nat)
    (b : List (String × String)) (bs : List (List (String × String)))
    (acc : List (String × Json)) (done n : Nat) (prog : List (Nat × Nat))
    (e : JsError) (n1 : Nat)
    (he : invokeWithRetry invoke (buildTranslationPrompt sys b) n MAX_ATTEMPTS =
      (Except.error e, n1)) :
    processBatches invoke sys total (b :: bs) acc done n prog = ⟨Except.error e, n1, prog⟩ := by
  unfold processBatches
  rw [he]

/-- Equation of the batch loop when the retry controller succeeds on the first
batch. -/
theorem processBatches_cons_ok (invoke : Invoker) (sys : String) (total : Nat)
    (b : List (String × String)) (bs : List (List (String × String)))
    (acc : List (String × Json)) (done n : Nat) (prog : List (Nat × Nat))
    (text : String) (n1 : Nat)
    (he : invokeWithRetry invoke (buildTranslationPrompt sys b) n MAX_ATTEMPTS =
      (Except.ok text, n1)) :
    processBatches invoke sys total (b :: bs) acc done n prog =
      processBatches invoke sys total bs
        (mergeJs acc (parseTranslationResponse text b)) (done + b.length) n1
        (prog ++ [(done + b.length, total)]) := by
  conv_lhs => unfold processBatches
  rw [he]

/-- A successful unit of work of the retry controller comes from a successful
invocation at the index just below the resulting counter. -/
theorem invokeWithRetry_ok_inv (invoke : Invoker) (prompt : String) :
    ∀ (rem n n1 : Nat) (t : String),
      invokeWithRetry invoke prompt n rem = (Except.ok t, n1) →
      invoke (n1 - 1) prompt = Except.ok t := by
  intro rem
  induction rem with
  | zero =>
    intro n n1 t h
    exact absurd (congrArg Prod.fst h) (by simp [invokeWithRetry])
  | succ rem ih =>
    intro n n1 t h
    cases hc : invoke n prompt with
    | ok t2 =>
      rw [invokeWithRetry_ok_eq invoke prompt n rem t2 hc] at h
      have h1 : t2 = t := by
        have := congrArg Prod.fst h
        simpa using this
      have h2 : n + 1 = n1 := by
        have := congrArg Prod.snd h
        simpa using this
      rw [← h2]
      simp only [Nat.add_sub_cancel]
      rw [hc, h1]
    | error e =>
      by_cases hr : isRateLimitError e.message = true
      · rw [invokeWithRetry_rl_eq invoke prompt n rem e hc hr] at h
        exact ih (n + 1) n1 t h
      · rw [invokeWithRetry_fatal_eq invoke prompt n rem e hc
          (Bool.not_eq_true _ ▸ Bool.of_not_eq_true hr)] at h
        exact absurd (congrArg Prod.fst h) (by simp)

/-- The expected sequence of progress events for a run over the given batches
starting from `done` already-processed messages. -/
def progressList (total : Nat) : Nat → List (List (String × String)) → List (Nat × Nat)
  | _, [] => []
  | done, b :: bs => (done + b.length, total) :: progressList total (done + b.length) bs

/-- A successful run reports exactly one progress event per batch, in order,
appended to the events already reported. -/
theorem processBatches_ok_progress (invoke : Invoker) (sys : String) (total : Nat) :
    ∀ (bs : List (List (String × String))) (acc : List (String × Json))
      (done n : Nat) (prog : List (Nat × Nat)) (r : List (String × Json)),
      (processBatches invoke sys total bs acc done n prog).result = Except.ok r →
      (processBatches invoke sys total bs acc done n prog).progress =
        prog ++ progressList total done bs := by
  intro bs
  induction bs with
  | nil => intro acc done n prog r _; simp [processBatches, progressList]
  | cons b bs ih =>
    intro acc done n prog r hok
    cases hi : invokeWithRetry invoke (buildTranslationPrompt sys b) n MAX_ATTEMPTS with
    | mk outcome n1 =>
      cases outcome with
      | error e =>
        rw [processBatches_cons_err invoke sys total b bs acc done n prog e n1 hi] at hok
        exact absurd hok (by simp)
      | ok text =>
        rw [processBatches_cons_ok invoke sys total b bs acc done n prog text n1 hi] at hok ⊢
        rw [ih _ _ _ _ r hok]
        show (prog ++ [(done + b.length, total)]) ++ _ = _
        rw [List.append_assoc]
        rfl

/-- A successful run whose responses, batch by batch, preserve the key set of
the batch whose prompt elicited them returns a mapping whose key set is the
union of the accumulated keys and the keys of all remaining batches.  The
response of a batch is tied to the batch through its prompt: the loop invokes
the capability for batch `b` with `buildTranslationPrompt sys b` and nothing
else. -/
theorem processBatches_ok_keys (invoke : Invoker) (sys : String) (total : Nat) :
    ∀ (bs : List (List (String × String))) (acc : List (String × Json))
      (done n : Nat) (prog : List (Nat × Nat)) (r : List (String × Json)),
      (∀ m t, ∀ b ∈ bs, invoke m (buildTranslationPrompt sys b) = Except.ok t → ∀ k,
        k ∈ (parseTranslationResponse t b).map Prod.fst ↔ k ∈ b.map Prod.fst) →
      (processBatches invoke sys total bs acc done n prog).result = Except.ok r →
      ∀ k, k ∈ r.map Prod.fst ↔ k ∈ acc.map Prod.fst ∨ k ∈ bs.flatten.map Prod.fst := by
  intro bs
  induction bs with
  | nil =>
    intro acc done n prog r _ hok k
    have hr : Except.ok (ε := JsError) acc = Except.ok r := hok
    have : acc = r := (Except.ok.injEq _ _).mp hr
    subst this
    simp
  | cons b bs ih =>
    intro acc done n prog r hkeys hok k
    cases hi : invokeWithRetry invoke (buildTranslationPrompt sys b) n MAX_ATTEMPTS with
    | mk outcome n1 =>
      cases outcome with
      | error e =>
        rw [processBatches_cons_err invoke sys total b bs acc done n prog e n1 hi] at hok
        exact absurd hok (by simp)
      | ok text =>
        rw [processBatches_cons_ok invoke sys total b bs acc done n prog text n1 hi] at hok
        have hkeys2 : ∀ m t, ∀ b2 ∈ bs, invoke m (buildTranslationPrompt sys b2) =
            Except.ok t → ∀ k2,
            k2 ∈ (parseTranslationResponse t b2).map Prod.fst ↔ k2 ∈ b2.map Prod.fst :=
          fun m t b2 hb2 hm k2 => hkeys m t b2 (List.mem_cons_of_mem b hb2) hm k2
        have hrec := ih _ _ _ _ r hkeys2 hok k
        have hinv := invokeWithRetry_ok_inv invoke (buildTranslationPrompt sys b)
          MAX_ATTEMPTS n n1 text hi
        have hbatch := hkeys (n1 - 1) text b (List.mem_cons_self b bs) hinv k
        rw [mem_map_fst_mergeJs, hbatch] at hrec
        rw [hrec]
        simp only [List.flatten_cons, List.map_append, List.mem_append]
        tauto

/-- With an invocation capability that always succeeds, each batch consumes
exactly one invocation. -/
theorem processBatches_calls_allOk (invoke : Invoker) (sys : String) (total : Nat)
    (hinv : ∀ m p, ∃ t, invoke m p = Except.ok t) :
    ∀ (bs : List (List (String × String))) (acc : List (String × Json))
      (done n : Nat) (prog : List (Nat × Nat)),
      (processBatches invoke sys total bs acc done n prog).calls = n + bs.length := by
  intro bs
  induction bs with
  | nil => intro acc done n prog; simp [processBatches]
  | cons b bs ih =>
    intro acc done n prog
    obtain ⟨t, ht⟩ := hinv n (buildTranslationPrompt sys b)
    have hr : invokeWithRetry invoke (buildTranslationPrompt sys b) n MAX_ATTEMPTS =
        (Except.ok t, n + 1) := invokeWithRetry_ok_eq invoke _ n 2 t ht
    rw [processBatches_cons_ok invoke sys total b bs acc done n prog t (n + 1) hr, ih]
    simp only [List.length_cons]
    omega

/-- With an invocation capability that always succeeds, the run succeeds. -/
theorem processBatches_allOk_isOk (invoke : Invoker) (sys : String) (total : Nat)
    (hinv : ∀ m p, ∃ t, invoke m p = Except.ok t) :
    ∀ (bs : List (List (String × String))) (acc : List (String × Json))
      (done n : Nat) (prog : List (Nat × Nat)),
      ∃ r, (processBatches invoke sys total bs acc done n prog).result = Except.ok r := by
  intro bs
  induction bs with
  | nil => intro acc done n prog; exact ⟨acc, rfl⟩
  | cons b bs ih =>
    intro acc done n prog
    obtain ⟨t, ht⟩ := hinv n (buildTranslationPrompt sys b)
    have hr : invokeWithRetry invoke (buildTranslationPrompt sys b) n MAX_ATTEMPTS =
        (Except.ok t, n + 1) := invokeWithRetry_ok_eq invoke _ n 2 t ht
    rw [processBatches_cons_ok invoke sys total b bs acc done n prog t (n + 1) hr]
    exact ih _ _ _ _

/-- There is one progress event per batch. -/
theorem progressList_length (total : Nat) :
    ∀ (bs : List (List (String × String))) (done : Nat),
      (progressList total done bs).length = bs.length := by
  intro bs
  induction bs with
  | nil => intro done; rfl
  | cons b bs ih => intro done; simp [progressList, ih]

/-- Every progress event reports the same total. -/
theorem progressList_total (total : Nat) :
    ∀ (bs : List (List (String × String))) (done : Nat),
      ∀ e ∈ progressList total done bs, e.2 = total := by
  intro bs
  induction bs with
  | nil => intro done e he; simp [progressList] at he
  | cons b bs ih =>
    intro done e he
    rcases List.mem_cons.mp he with h | h
    · rw [h]
    · exact ih (done + b.length) e h

/-- Every current value reported strictly exceeds the count already processed
when no batch is empty. -/
theorem progressList_lt (total : Nat) :
    ∀ (bs : List (List (String × String))) (done : Nat),
      (∀ b ∈ bs, b ≠ []) → ∀ e ∈ progressList total done bs, done < e.1 := by
  intro bs
  induction bs with
  | nil => intro done _ e he; simp [progressList] at he
  | cons b bs ih =>
    intro done hne e he
    have hb : 0 < b.length := List.length_pos.mpr (hne b (List.mem_cons_self b bs))
    rcases List.mem_cons.mp he with h | h
    · rw [h]; omega
    · have := ih (done + b.length) (fun b2 hb2 => hne b2 (List.mem_cons_of_mem b hb2)) e h
      omega

/-- The current values are strictly increasing across progress events when no
batch is empty. -/
theorem progressList_chain (total : Nat) :
    ∀ (bs : List (List (String × String))) (done : Nat),
      (∀ b ∈ bs, b ≠ []) →
      List.Chain' (fun a b => a.1 < b.1) (progressList total done bs) := by
  intro bs
  induction bs with
  | nil => intro done _; exact List.chain'_nil
  | cons b bs ih =>
    intro done hne
    have hrest : ∀ b2 ∈ bs, b2 ≠ [] := fun b2 hb2 => hne b2 (List.mem_cons_of_mem b hb2)
    rw [show progressList total done (b :: bs) =
      (done + b.length, total) :: progressList total (done + b.length) bs from rfl]
    rw [List.chain'_cons']
    constructor
    · intro y hy
      exact progressList_lt total bs (done + b.length) hrest y (List.mem_of_mem_head? hy)
    · exact ih (done + b.length) hrest

/-- The last progress event reports the count already processed plus all batch
sizes. -/
theorem progressList_getLast (total : Nat) :
    ∀ (bs : List (List (String × String))) (done : Nat), bs ≠ [] →
      (progressList total done bs).getLast? =
        some (done + (bs.map List.length).sum, total) := by
  intro bs
  induction bs with
  | nil => intro done h; exact absurd rfl h
  | cons b bs ih =>
    intro done _
    cases bs with
    | nil =>
      show [(done + b.length, total)].getLast? = _
      rw [List.getLast?_singleton]
      simp
    | cons b2 bs2 =>
      have h1 : progressList total done (b :: b2 :: bs2) =
          (done + b.length, total) :: progressList total (done + b.length) (b2 :: bs2) := rfl
      have h2 : progressList total (done + b.length) (b2 :: bs2) =
          (done + b.length + b2.length, total) ::
            progressList total (done + b.length + b2.length) bs2 := rfl
      rw [h1, h2, List.getLast?_cons_cons, ← h2,
        ih (done + b.length) (by simp)]
      simp only [List.map_cons, List.sum_cons]
      congr 2
      omega

/-- Unfolding of `translateMessagesWith` on a non-empty message map. -/
theorem translateMessagesWith_ne_nil (B : Nat) (messages : List (String × String))
    (lang ctx : String) (invoke : Invoker) (h : messages ≠ []) :
    translateMessagesWith B messages lang ctx invoke =
      processBatches invoke (buildSystemPrompt lang ctx) messages.length
        (chunkList B messages) [] 0 0 [] := by
  unfold translateMessagesWith
  rw [if_neg]
  simp [List.isEmpty_iff, h]

/-- The prefix of the system prompt template up to the target-language marker. -/
def SYSTEM_PROMPT_PRE_A : String :=
  "You are a professional translator specializing in software localization. \nTranslate the following UI text from "

/-- The guideline text of the system prompt template after the period that
closes the target-language sentence. -/
def SYSTEM_PROMPT_POST_TAIL : String :=
  "\n\nImportant guidelines:\n- Preserve any placeholders like \x7bname\x7d, \x7bcount\x7d, \x7b\x7bvariable\x7d\x7d, etc.\n- Keep the same tone and formality level\n- Use natural, idiomatic expressions in the target language\n- Maintain any HTML tags or markdown formatting\n- Do not add or remove content, only translate"

set_option maxRecDepth 4000 in
/-- The template prefix splits at the target-language marker. -/
theorem sysPromptPre_split : SYSTEM_PROMPT_PRE = SYSTEM_PROMPT_PRE_A ++ "English to " := rfl

set_option maxRecDepth 4000 in
/-- The template suffix starts with the period closing the target-language
sentence. -/
theorem sysPromptPost_split : SYSTEM_PROMPT_POST = "." ++ SYSTEM_PROMPT_POST_TAIL := rfl

/-- A resolved language name of a code present in the table. -/
theorem languageName_of_lookup_some (code name : String)
    (h : List.lookup code LANGUAGE_NAMES = some name) : languageName code = name := by
  unfold languageName
  rw [h]
  rfl

/-- A code absent from the table resolves to itself. -/
theorem languageName_of_lookup_none (code : String)
    (h : List.lookup code LANGUAGE_NAMES = none) : languageName code = code := by
  unfold languageName
  rw [h]
  rfl

/-- The system prompt names its resolved target language surrounded by the
fixed sentence, whatever the context is. -/
theorem containsSubstr_target_marker (code ctx name : String)
    (hname : languageName code = name) :
    containsSubstr (buildSystemPrompt code ctx) ("English to " ++ name ++ ".") = true := by
  have hbase : (systemPromptBase code).data =
      SYSTEM_PROMPT_PRE_A.data ++ ("English to " ++ name ++ ".").data ++
        SYSTEM_PROMPT_POST_TAIL.data := by
    rw [systemPromptBase, hname, sysPromptPre_split, sysPromptPost_split]
    simp only [String.data_append, List.append_assoc]
  by_cases hctx : ctx = ""
  · rw [buildSystemPrompt, if_pos hctx]
    exact containsSubstr_of_split _ _ SYSTEM_PROMPT_PRE_A.data SYSTEM_PROMPT_POST_TAIL.data hbase
  · rw [buildSystemPrompt, if_neg hctx]
    apply containsSubstr_of_split _ _ SYSTEM_PROMPT_PRE_A.data
      (SYSTEM_PROMPT_POST_TAIL.data ++ (CONTEXT_HEADER.data ++ ctx.data))
    rw [String.data_append, String.data_append, hbase]
    simp only [List.append_assoc]

set_option maxRecDepth 40000 in
/-- C8: for every target language and context string, an empty context yields
exactly the base prompt with no product-context section or header, and a
non-empty context yields the base prompt followed by the labelled
product-context section with the context appearing verbatim; the base prompt
itself never carries the label. -/
theorem buildSystemPrompt_context_spec :
    (∀ lang ctx, ctx = "" → buildSystemPrompt lang ctx = systemPromptBase lang) ∧
    (∀ lang ctx, ctx ≠ "" →
      buildSystemPrompt lang ctx = systemPromptBase lang ++ CONTEXT_HEADER ++ ctx ∧
      containsSubstr (buildSystemPrompt lang ctx) ctx = true ∧
      containsSubstr (buildSystemPrompt lang ctx) CONTEXT_HEADER = true) ∧
    containsSubstr (systemPromptBase "de") "Product context" = false ∧
    containsSubstr CONTEXT_HEADER "Product context" = true := by
  refine ⟨?_, ?_, ?_, ?_⟩
  · intro lang ctx h
    rw [buildSystemPrompt, if_pos h]
  · intro lang ctx h
    refine ⟨by rw [buildSystemPrompt, if_neg h], ?_, ?_⟩
    · apply containsSubstr_of_split _ _ (systemPromptBase lang ++ CONTEXT_HEADER).data []
      rw [buildSystemPrompt, if_neg h]
      simp [String.data_append]
    · apply containsSubstr_of_split _ _ (systemPromptBase lang).data ctx.data
      rw [buildSystemPrompt, if_neg h]
      simp [String.data_append]
  · decide
  · decide

/-- Witness for C8 at the concrete inputs of the repository tests. -/
theorem buildSystemPrompt_context_spec_wit :
    buildSystemPrompt "de" "" = systemPromptBase "de" ∧
    buildSystemPrompt "de" "This is a food delivery app for restaurants" =
      systemPromptBase "de" ++ CONTEXT_HEADER ++
        "This is a food delivery app for restaurants" ∧
    containsSubstr (buildSystemPrompt "de" "This is a food delivery app for restaurants")
      "This is a food delivery app for restaurants" = true :=
  ⟨buildSystemPrompt_context_spec.1 "de" "" rfl,
   (buildSystemPrompt_context_spec.2.1 "de" "This is a food delivery app for restaurants"
     (by decide)).1,
   (buildSystemPrompt_context_spec.2.1 "de" "This is a food delivery app for restaurants"
     (by decide)).2.1⟩

/-- C9: a language code present in the lookup table makes the prompt name the
resolved display name as the target language; any other code appears verbatim
in that position, with no error case. -/
theorem buildSystemPrompt_language_spec :
    (∀ code ctx name, List.lookup code LANGUAGE_NAMES = some name →
      languageName code = name ∧
      containsSubstr (buildSystemPrompt code ctx) ("English to " ++ name ++ ".") = true) ∧
    (∀ code ctx, List.lookup code LANGUAGE_NAMES = none →
      languageName code = code ∧
      containsSubstr (buildSystemPrompt code ctx) ("English to " ++ code ++ ".") = true) := by
  constructor
  · intro code ctx name h
    have hn := languageName_of_lookup_some code name h
    exact ⟨hn, containsSubstr_target_marker code ctx name hn⟩
  · intro code ctx h
    have hn := languageName_of_lookup_none code h
    exact ⟨hn, containsSubstr_target_marker code ctx code hn⟩

/-- Witness for C9 at the concrete inputs of the repository tests. -/
theorem buildSystemPrompt_language_spec_wit :
    containsSubstr (buildSystemPrompt "fr" "") ("English to " ++ "French" ++ ".") = true ∧
    containsSubstr (buildSystemPrompt "unknown-lang" "")
      ("English to " ++ "unknown-lang" ++ ".") = true :=
  ⟨(buildSystemPrompt_language_spec.1 "fr" "" "French" (by decide)).2,
   (buildSystemPrompt_language_spec.2 "unknown-lang" "" (by decide)).2⟩

/-- C10: the language table has exactly the thirteen codes de, fr, es, it, pt,
nl, pl, ja, zh, ko, ru, tr, ar in this order, the lookup is case sensitive
(upper- or mixed-case variants, region-qualified codes and en are all absent),
and every absent code is rendered verbatim as the target language of the
prompt. -/
theorem LANGUAGE_NAMES_table_spec :
    LANGUAGE_NAMES.map Prod.fst =
      ["de", "fr", "es", "it", "pt", "nl", "pl", "ja", "zh", "ko", "ru", "tr", "ar"] ∧
    LANGUAGE_NAMES.length = 13 ∧
    List.lookup "FR" LANGUAGE_NAMES = none ∧
    List.lookup "De" LANGUAGE_NAMES = none ∧
    List.lookup "zh-TW" LANGUAGE_NAMES = none ∧
    List.lookup "en" LANGUAGE_NAMES = none ∧
    (∀ code ctx, List.lookup code LANGUAGE_NAMES = none →
      containsSubstr (buildSystemPrompt code ctx) ("English to " ++ code ++ ".") = true) := by
  refine ⟨by decide, by decide, by decide, by decide, by decide, by decide, ?_⟩
  intro code ctx h
  exact containsSubstr_target_marker code ctx code (languageName_of_lookup_none code h)

/-- Witness for C10 at concrete absent codes. -/
theorem LANGUAGE_NAMES_table_spec_wit :
    List.lookup "FR" LANGUAGE_NAMES = none ∧
    containsSubstr (buildSystemPrompt "zh-TW" "") ("English to " ++ "zh-TW" ++ ".") = true :=
  ⟨LANGUAGE_NAMES_table_spec.2.2.1,
   LANGUAGE_NAMES_table_spec.2.2.2.2.2.2 "zh-TW" "" LANGUAGE_NAMES_table_spec.2.2.2.2.1⟩

/-- A parse result with no extractable object fields is exactly one that is not
a plain object. -/
theorem objFields_eq_none_iff (o : Option Json) :
    objFields? o = none ↔ ∀ fields, o ≠ some (Json.obj fields) := by
  cases o with
  | none => simp [objFields?]
  | some v => cases v <;> simp [objFields?]

/-- Extracting object fields succeeds exactly on a parsed plain object. -/
theorem objFields_eq_some_iff (o : Option Json) (fields : List (String × Json)) :
    objFields? o = some fields ↔ o = some (Json.obj fields) := by
  cases o with
  | none => simp [objFields?]
  | some v => cases v <;> simp [objFields?]

/-- Equation of the Response Parser when the whole text parses as a plain
object. -/
theorem parseTranslationResponse_attempt1 (text : String) (batch : List (String × String))
    (fields : List (String × Json)) (h1 : objFields? (jsonParse text) = some fields) :
    parseTranslationResponse text batch = fields := by
  unfold parseTranslationResponse
  rw [h1]

/-- Equation of the Response Parser when only the brace-delimited substring
parses as a plain object. -/
theorem parseTranslationResponse_attempt2 (text sub : String) (batch : List (String × String))
    (fields : List (String × Json)) (h1 : objFields? (jsonParse text) = none)
    (h2 : extractJsonSlice text = some sub) (h3 : objFields? (jsonParse sub) = some fields) :
    parseTranslationResponse text batch = fields := by
  unfold parseTranslationResponse
  rw [h1, h2]
  show (match objFields? (jsonParse sub) with
    | some fields => fields
    | none => identityFallback batch) = fields
  rw [h3]

/-- Equation of the Response Parser when there is a brace-delimited substring
but it does not parse as a plain object. -/
theorem parseTranslationResponse_fallback_sub (text sub : String)
    (batch : List (String × String)) (h1 : objFields? (jsonParse text) = none)
    (h2 : extractJsonSlice text = some sub) (h3 : objFields? (jsonParse sub) = none) :
    parseTranslationResponse text batch = identityFallback batch := by
  unfold parseTranslationResponse
  rw [h1, h2]
  show (match objFields? (jsonParse sub) with
    | some fields => fields
    | none => identityFallback batch) = identityFallback batch
  rw [h3]

/-- Equation of the Response Parser when there is no brace-delimited substring
at all. -/
theorem parseTranslationResponse_fallback_none (text : String)
    (batch : List (String × String)) (h1 : objFields? (jsonParse text) = none)
    (h2 : extractJsonSlice text = none) :
    parseTranslationResponse text batch = identityFallback batch := by
  unfold parseTranslationResponse
  rw [h1, h2]

/-- C3 (amended): the Response Parser returns exactly the whole-text parse when
it yields a plain object; otherwise the parse of the brace-delimited substring
from the first opening brace through the last closing brace when that yields a
plain object; otherwise the identity fallback.  It is a total function and
whichever attempt wins is returned in full, with no merging between attempts.
The claim as frozen says the second attempt parses the suffix of the text from
the first opening brace to the end; that reading fails the repository test with
trailing prose, see the counterexample. -/
theorem parseTranslationResponse_trichotomy (text : String) (batch : List (String × String)) :
    (∃ fields, jsonParse text = some (Json.obj fields) ∧
      parseTranslationResponse text batch = fields) ∨
    ((∀ fields, jsonParse text ≠ some (Json.obj fields)) ∧
      ∃ sub fields, extractJsonSlice text = some sub ∧
        jsonParse sub = some (Json.obj fields) ∧
        parseTranslationResponse text batch = fields) ∨
    ((∀ fields, jsonParse text ≠ some (Json.obj fields)) ∧
      (∀ sub, extractJsonSlice text = some sub →
        ∀ fields, jsonParse sub ≠ some (Json.obj fields)) ∧
      parseTranslationResponse text batch = identityFallback batch) := by
  rcases ho1 : objFields? (jsonParse text) with _ | fields1
  case some =>
    exact Or.inl ⟨fields1, (objFields_eq_some_iff _ _).mp ho1,
      parseTranslationResponse_attempt1 text batch fields1 ho1⟩
  case none =>
    have hno1 := (objFields_eq_none_iff _).mp ho1
    rcases he : extractJsonSlice text with _ | sub
    case none =>
      refine Or.inr (Or.inr ⟨hno1, ?_, parseTranslationResponse_fallback_none text batch ho1 he⟩)
      intro sub hsub
      exact absurd hsub (by simp)
    case some =>
      rcases ho2 : objFields? (jsonParse sub) with _ | fields2
      case some =>
        exact Or.inr (Or.inl ⟨hno1, sub, fields2, rfl, (objFields_eq_some_iff _ _).mp ho2,
          parseTranslationResponse_attempt2 text sub batch fields2 ho1 he ho2⟩)
      case none =>
        refine Or.inr (Or.inr ⟨hno1, ?_,
          parseTranslationResponse_fallback_sub text sub batch ho1 he ho2⟩)
        intro sub2 hsub2 fields
        have hss : sub = sub2 := by injection hsub2
        rw [← hss]
        exact (objFields_eq_none_iff _).mp ho2 fields

/-- The response of the repository test "translateMessages extracts JSON from
response with surrounding text": prose before and after the object. -/
def respWithProse : String :=
  "Here is the translation:\n\x7b\"hello\": \"Hallo\"\x7d\n\nHope this helps!"

set_option maxRecDepth 40000 in
/-- C3 counterexample: on a response with prose after the object, the suffix
from the first opening brace does not parse (trailing prose), so the parser the
claim describes falls back to the untranslated batch; the parser pinned by the
repository test extracts the brace-delimited substring and returns the
translation.  The two parsers disagree at this input, refuting the claim as
stated. -/
theorem parseTranslationResponse_suffix_cex :
    jsonParse respWithProse = none ∧
    suffixFromFirstBrace respWithProse =
      some "\x7b\"hello\": \"Hallo\"\x7d\n\nHope this helps!" ∧
    jsonParse "\x7b\"hello\": \"Hallo\"\x7d\n\nHope this helps!" = none ∧
    claimedParseTranslationResponse respWithProse [("hello", "Hello")] =
      identityFallback [("hello", "Hello")] ∧
    identityFallback [("hello", "Hello")] = [("hello", Json.str "Hello")] ∧
    parseTranslationResponse respWithProse [("hello", "Hello")] =
      [("hello", Json.str "Hallo")] ∧
    ¬([("hello", Json.str "Hallo")] = ([("hello", Json.str "Hello")] : List (String × Json))) := by
  refine ⟨rfl, rfl, rfl, rfl, rfl, rfl, ?_⟩
  intro h
  have h1 : Json.str "Hallo" = Json.str "Hello" := congrArg Prod.snd (List.head_eq_of_cons_eq h)
  have h2 : "Hallo" = "Hello" := Json.str.inj h1
  exact absurd h2 (by decide)

set_option maxRecDepth 40000 in
/-- Witness for C3 at a concrete unparseable response: the trichotomy puts it
in the identity-fallback case. -/
theorem parseTranslationResponse_trichotomy_wit :
    parseTranslationResponse "This is not JSON" [("hello", "Hello")] =
      identityFallback [("hello", "Hello")] := by
  rcases parseTranslationResponse_trichotomy "This is not JSON" [("hello", "Hello")] with
    ⟨f, hf, _⟩ | ⟨_, sub, f, hsub, _, _⟩ | ⟨_, _, hres⟩
  · rw [show jsonParse "This is not JSON" = none from rfl] at hf
    exact absurd hf (by simp)
  · rw [show extractJsonSlice "This is not JSON" = none from rfl] at hsub
    exact absurd hsub (by simp)
  · exact hres

/-- Exhaustion of the retry controller: three consecutive rate-limit-classified
failures produce the distinguished error after exactly three invocations. -/
theorem invokeWithRetry_rl_exhaust (invoke : Invoker) (prompt : String) (n : Nat)
    (h0 : ∃ e, invoke n prompt = Except.error e ∧ isRateLimitError e.message = true)
    (h1 : ∃ e, invoke (n + 1) prompt = Except.error e ∧ isRateLimitError e.message = true)
    (h2 : ∃ e, invoke (n + 2) prompt = Except.error e ∧ isRateLimitError e.message = true) :
    invokeWithRetry invoke prompt n MAX_ATTEMPTS = (Except.error RateLimitError, n + 3) := by
  obtain ⟨e0, he0, hr0⟩ := h0
  obtain ⟨e1, he1, hr1⟩ := h1
  obtain ⟨e2, he2, hr2⟩ := h2
  show invokeWithRetry invoke prompt n (Nat.succ 2) = _
  rw [invokeWithRetry_rl_eq invoke prompt n 2 e0 he0 hr0,
    invokeWithRetry_rl_eq invoke prompt (n + 1) 1 e1 he1 hr1,
    invokeWithRetry_rl_eq invoke prompt (n + 2) 0 e2 he2 hr2]
  rfl

/-- C4: an invocation capability whose first three calls all fail with
rate-limit-classified messages makes `translateMessages` raise the
distinguished `RateLimitError`, whose name is "RateLimitError" and whose
message is exactly the fixed text, after exactly 3 invocations. -/
theorem translateMessages_rateLimit_exhaust (messages : List (String × String))
    (lang ctx : String) (invoke : Invoker) (hne : messages ≠ [])
    (hfail : ∀ m p, m < MAX_ATTEMPTS →
      ∃ e, invoke m p = Except.error e ∧ isRateLimitError e.message = true) :
    (translateMessages messages lang ctx invoke).result = Except.error RateLimitError ∧
    (translateMessages messages lang ctx invoke).calls = MAX_ATTEMPTS ∧
    RateLimitError.name = "RateLimitError" ∧
    RateLimitError.message = "Rate limit exceeded. Maximum retry attempts reached." := by
  have hchunk := chunkList_cons BATCH_SIZE (by decide) messages hne
  have hex := invokeWithRetry_rl_exhaust invoke
    (buildTranslationPrompt (buildSystemPrompt lang ctx) (messages.take BATCH_SIZE)) 0
    (hfail 0 _ (by decide)) (hfail 1 _ (by decide)) (hfail 2 _ (by decide))
  have hrun : translateMessages messages lang ctx invoke = ⟨Except.error RateLimitError, 3, []⟩ := by
    unfold translateMessages
    rw [translateMessagesWith_ne_nil BATCH_SIZE messages lang ctx invoke hne, hchunk,
      processBatches_cons_err invoke (buildSystemPrompt lang ctx) messages.length
        (messages.take BATCH_SIZE) (chunkList BATCH_SIZE (messages.drop BATCH_SIZE))
        [] 0 0 [] RateLimitError (0 + 3) hex]
  exact ⟨by rw [hrun], by rw [hrun]; rfl, rfl, rfl⟩

/-- Witness for C4 at the inputs of the repository test
"translateMessages throws RateLimitError after max retries exceeded". -/
theorem translateMessages_rateLimit_exhaust_wit :
    (translateMessages [("hello", "Hello")] "de" ""
      (fun _ _ => Except.error ⟨"Error", "Error 429: Rate limited"⟩)).result =
        Except.error RateLimitError ∧
    (translateMessages [("hello", "Hello")] "de" ""
      (fun _ _ => Except.error ⟨"Error", "Error 429: Rate limited"⟩)).calls = MAX_ATTEMPTS ∧
    RateLimitError.name = "RateLimitError" ∧
    RateLimitError.message = "Rate limit exceeded. Maximum retry attempts reached." :=
  translateMessages_rateLimit_exhaust [("hello", "Hello")] "de" "" _ (by decide)
    (fun _ _ _ => ⟨⟨"Error", "Error 429: Rate limited"⟩, rfl, by decide⟩)

/-- C5: a failure whose lower-cased message contains "429", "rate limit",
"resource exhausted" or "quota" as a substring is classified as rate-limit and
retried within the budget of 3 total attempts; after two such failures followed
by a success the call returns the successfully parsed result and the capability
was invoked exactly 3 times. -/
theorem translateMessages_rateLimit_retry (messages : List (String × String))
    (lang ctx msg successText : String) (invoke : Invoker)
    (hne : messages ≠ []) (hsz : messages.length ≤ BATCH_SIZE)
    (hcls : containsSubstr (toLowerStr msg) "429" = true ∨
      containsSubstr (toLowerStr msg) "rate limit" = true ∨
      containsSubstr (toLowerStr msg) "resource exhausted" = true ∨
      containsSubstr (toLowerStr msg) "quota" = true)
    (h0 : ∀ p, invoke 0 p = Except.error ⟨"Error", msg⟩)
    (h1 : ∀ p, invoke 1 p = Except.error ⟨"Error", msg⟩)
    (h2 : ∀ p, invoke 2 p = Except.ok successText) :
    isRateLimitError msg = true ∧
    (translateMessages messages lang ctx invoke).result =
      Except.ok (mergeJs [] (parseTranslationResponse successText messages)) ∧
    (translateMessages messages lang ctx invoke).calls = MAX_ATTEMPTS := by
  have hrl : isRateLimitError msg = true := by
    unfold isRateLimitError
    rcases hcls with h | h | h | h <;> simp [h]
  have hret : invokeWithRetry invoke
      (buildTranslationPrompt (buildSystemPrompt lang ctx) messages) 0 MAX_ATTEMPTS =
      (Except.ok successText, 3) := by
    show invokeWithRetry invoke _ 0 (Nat.succ 2) = _
    rw [invokeWithRetry_rl_eq invoke _ 0 2 ⟨"Error", msg⟩ (h0 _) hrl]
    show invokeWithRetry invoke _ 1 (Nat.succ 1) = _
    rw [invokeWithRetry_rl_eq invoke _ 1 1 ⟨"Error", msg⟩ (h1 _) hrl]
    show invokeWithRetry invoke _ 2 (Nat.succ 0) = _
    rw [invokeWithRetry_ok_eq invoke _ 2 0 successText (h2 _)]
  have hrun : translateMessages messages lang ctx invoke =
      ⟨Except.ok (mergeJs [] (parseTranslationResponse successText messages)), 3,
        [(0 + messages.length, messages.length)]⟩ := by
    unfold translateMessages
    rw [translateMessagesWith_ne_nil BATCH_SIZE messages lang ctx invoke hne,
      chunkList_single BATCH_SIZE (by decide) messages hne hsz,
      processBatches_cons_ok invoke (buildSystemPrompt lang ctx) messages.length
        messages [] [] 0 0 [] successText 3 hret]
    rfl
  exact ⟨hrl, by rw [hrun], by rw [hrun]; rfl⟩

set_option maxRecDepth 40000 in
/-- Witness for C5 at the inputs of the repository test
"translateMessages retries on quota exceeded error". -/
theorem translateMessages_rateLimit_retry_wit :
    isRateLimitError "API quota exceeded" = true ∧
    (translateMessages [("hello", "Hello")] "de" ""
      (fun n _ => if n < 2 then Except.error ⟨"Error", "API quota exceeded"⟩
        else Except.ok "\x7b\"hello\": \"Hallo\"\x7d")).result =
      Except.ok (mergeJs []
        (parseTranslationResponse "\x7b\"hello\": \"Hallo\"\x7d" [("hello", "Hello")])) ∧
    (translateMessages [("hello", "Hello")] "de" ""
      (fun n _ => if n < 2 then Except.error ⟨"Error", "API quota exceeded"⟩
        else Except.ok "\x7b\"hello\": \"Hallo\"\x7d")).calls = MAX_ATTEMPTS :=
  translateMessages_rateLimit_retry [("hello", "Hello")] "de" "" "API quota exceeded"
    "\x7b\"hello\": \"Hallo\"\x7d" _ (by decide) (by decide)
    (Or.inr (Or.inr (Or.inr (by decide))))
    (fun _ => rfl) (fun _ => rfl) (fun _ => rfl)

/-- C6: a failure whose message is not rate-limit classified makes
`translateMessages` fail immediately, surfacing the original error value
unchanged, with exactly one invocation and no retry. -/
theorem translateMessages_fatal (messages : List (String × String))
    (lang ctx : String) (e : JsError) (invoke : Invoker)
    (hne : messages ≠ [])
    (h0 : ∀ p, invoke 0 p = Except.error e)
    (hcls : isRateLimitError e.message = false) :
    (translateMessages messages lang ctx invoke).result = Except.error e ∧
    (translateMessages messages lang ctx invoke).calls = 1 := by
  have hchunk := chunkList_cons BATCH_SIZE (by decide) messages hne
  have hret : invokeWithRetry invoke
      (buildTranslationPrompt (buildSystemPrompt lang ctx) (messages.take BATCH_SIZE)) 0
      MAX_ATTEMPTS = (Except.error e, 1) := by
    show invokeWithRetry invoke _ 0 (Nat.succ 2) = _
    exact invokeWithRetry_fatal_eq invoke _ 0 2 e (h0 _) hcls
  have hrun : translateMessages messages lang ctx invoke = ⟨Except.error e, 1, []⟩ := by
    unfold translateMessages
    rw [translateMessagesWith_ne_nil BATCH_SIZE messages lang ctx invoke hne, hchunk,
      processBatches_cons_err invoke (buildSystemPrompt lang ctx) messages.length
        (messages.take BATCH_SIZE) (chunkList BATCH_SIZE (messages.drop BATCH_SIZE))
        [] 0 0 [] e 1 hret]
  exact ⟨by rw [hrun], by rw [hrun]⟩

set_option maxRecDepth 40000 in
/-- Witness for C6 at the inputs of the repository test
"translateMessages throws immediately for non-rate-limit errors". -/
theorem translateMessages_fatal_wit :
    (translateMessages [("hello", "Hello")] "de" ""
      (fun _ _ => Except.error ⟨"Error", "Authentication failed"⟩)).result =
      Except.error ⟨"Error", "Authentication failed"⟩ ∧
    (translateMessages [("hello", "Hello")] "de" ""
      (fun _ _ => Except.error ⟨"Error", "Authentication failed"⟩)).calls = 1 :=
  translateMessages_fatal [("hello", "Hello")] "de" "" ⟨"Error", "Authentication failed"⟩ _
    (by decide) (fun _ => rfl) (by decide)

/-- C7: whenever `translateMessagesWith` succeeds on N messages with a positive
batch size B, the progress callback fires exactly once per batch, that is
ceiling of N over B times, with strictly increasing current values, every event
carrying total equal to N, and the final event reporting current equal to total
equal to N. -/
theorem translateMessages_progress_spec (B : Nat) (hB : 0 < B)
    (messages : List (String × String)) (lang ctx : String) (invoke : Invoker)
    (r : List (String × Json))
    (hok : (translateMessagesWith B messages lang ctx invoke).result = Except.ok r) :
    (translateMessagesWith B messages lang ctx invoke).progress.length =
      (messages.length + B - 1) / B ∧
    List.Chain' (fun a b => a.1 < b.1)
      (translateMessagesWith B messages lang ctx invoke).progress ∧
    (∀ e ∈ (translateMessagesWith B messages lang ctx invoke).progress,
      e.2 = messages.length) ∧
    (messages ≠ [] →
      (translateMessagesWith B messages lang ctx invoke).progress.getLast? =
        some (messages.length, messages.length)) := by
  by_cases hne : messages = []
  · subst hne
    refine ⟨?_, List.chain'_nil, ?_, ?_⟩
    · show (0 : Nat) = (0 + B - 1) / B
      rw [Nat.zero_add, Nat.div_eq_of_lt (by omega)]
    · intro e he
      exact absurd he (by simp [translateMessagesWith])
    · intro h
      exact absurd rfl h
  · have heq := translateMessagesWith_ne_nil B messages lang ctx invoke hne
    rw [heq] at hok ⊢
    have hp := processBatches_ok_progress invoke (buildSystemPrompt lang ctx) messages.length
      (chunkList B messages) [] 0 0 [] r hok
    rw [hp, List.nil_append]
    have hbne : ∀ b ∈ chunkList B messages, b ≠ [] := chunkList_ne_nil B hB messages
    refine ⟨?_, ?_, ?_, ?_⟩
    · rw [progressList_length, chunkList_length B hB]
    · exact progressList_chain _ _ _ hbne
    · exact progressList_total _ _ _
    · intro _
      have hchne : chunkList B messages ≠ [] := by
        rw [chunkList_cons B hB messages hne]
        exact List.cons_ne_nil _ _
      rw [progressList_getLast messages.length (chunkList B messages) 0 hchne]
      have hsum : ((chunkList B messages).map List.length).sum = messages.length := by
        rw [← List.length_flatten, chunkList_flatten B hB]
      rw [hsum, Nat.zero_add]

/-- Witness for C7 at a concrete one-message run with an always-succeeding
capability. -/
theorem translateMessages_progress_spec_wit :
    (translateMessagesWith 10 [("hello", "Hello")] "de" ""
      (fun _ _ => Except.ok "\x7b\x7d")).progress.length = (1 + 10 - 1) / 10 ∧
    (translateMessagesWith 10 [("hello", "Hello")] "de" ""
      (fun _ _ => Except.ok "\x7b\x7d")).progress.getLast? = some (1, 1) :=
  ⟨(translateMessages_progress_spec 10 (by decide) [("hello", "Hello")] "de" ""
      (fun _ _ => Except.ok "\x7b\x7d") [] rfl).1,
   (translateMessages_progress_spec 10 (by decide) [("hello", "Hello")] "de" ""
      (fun _ _ => Except.ok "\x7b\x7d") [] rfl).2.2.2 (by decide)⟩

/-- C1 (amended): whenever `translateMessagesWith` succeeds and every response
text the capability returns for a batch (the run prompts the capability for
batch `b` with `buildTranslationPrompt` of `b` and nothing else) parses to a
mapping with exactly the key set of that batch — which holds in particular for
every batch that fell back to the identity mapping — the key set of the
returned mapping equals the key set of the input, for any positive batch size.
Without that proviso the key set is whatever the model returned, see the
counterexample. -/
theorem translateMessages_keyset (B : Nat) (hB : 0 < B)
    (messages : List (String × String)) (lang ctx : String) (invoke : Invoker)
    (r : List (String × Json))
    (hkeys : ∀ m t, ∀ b ∈ chunkList B messages,
      invoke m (buildTranslationPrompt (buildSystemPrompt lang ctx) b) = Except.ok t →
      ∀ k, k ∈ (parseTranslationResponse t b).map Prod.fst ↔ k ∈ b.map Prod.fst)
    (hok : (translateMessagesWith B messages lang ctx invoke).result = Except.ok r) :
    ∀ k, k ∈ r.map Prod.fst ↔ k ∈ messages.map Prod.fst := by
  by_cases hne : messages = []
  · subst hne
    have h : Except.ok (ε := JsError) [] = Except.ok r := hok
    have : [] = r := (Except.ok.injEq _ _).mp h
    subst this
    simp
  · rw [translateMessagesWith_ne_nil B messages lang ctx invoke hne] at hok
    intro k
    have hmain := processBatches_ok_keys invoke (buildSystemPrompt lang ctx) messages.length
      (chunkList B messages) [] 0 0 [] r hkeys hok k
    rw [hmain, chunkList_flatten B hB]
    simp

/-- C1 counterexample: a run that succeeds with a response carrying a foreign
key returns a mapping whose key set is not the input key set; the input key
"hello" is dropped and the key "bogus" appears. -/
theorem translateMessages_keyset_cex :
    (translateMessages [("hello", "Hello")] "de" ""
      (fun _ _ => Except.ok "\x7b\"bogus\": \"x\"\x7d")).result =
      Except.ok [("bogus", Json.str "x")] ∧
    ([("bogus", Json.str "x")] : List (String × Json)).map Prod.fst = ["bogus"] ∧
    ([("hello", "Hello")] : List (String × String)).map Prod.fst = ["hello"] ∧
    ¬(("hello" : String) ∈ (["bogus"] : List String)) ∧
    ("hello" : String) ∈ (["hello"] : List String) := by
  exact ⟨rfl, rfl, rfl, by decide, by decide⟩

/-- The invoker of the C1 witness: it answers the prompt of the batch holding
key "a" with a translation for "a" and any other prompt with a translation for
"b", so each batch of the two-batch run below receives a parsed response
carrying exactly its own key. -/
def twoBatchInvoker : Invoker := fun _ p =>
  if p = buildTranslationPrompt (buildSystemPrompt "de" "") [("a", "x")] then
    Except.ok "\x7b\"a\": \"u\"\x7d"
  else Except.ok "\x7b\"b\": \"v\"\x7d"

set_option maxRecDepth 40000 in
/-- Witness for C1 at a two-batch run (batch size 1, two messages) in which
both responses parse successfully, each carrying exactly the keys of its own
batch: the principal multi-batch case of the amended claim. -/
theorem translateMessages_keyset_wit :
    (translateMessagesWith 1 [("a", "x"), ("b", "y")] "de" "" twoBatchInvoker).result =
      Except.ok [("a", Json.str "u"), ("b", Json.str "v")] ∧
    (("a" : String) ∈
        ([("a", Json.str "u"), ("b", Json.str "v")] : List (String × Json)).map Prod.fst ↔
      ("a" : String) ∈ ([("a", "x"), ("b", "y")] : List (String × String)).map Prod.fst) ∧
    (("b" : String) ∈
        ([("a", Json.str "u"), ("b", Json.str "v")] : List (String × Json)).map Prod.fst ↔
      ("b" : String) ∈ ([("a", "x"), ("b", "y")] : List (String × String)).map Prod.fst) := by
  have hkeys : ∀ m t, ∀ b ∈ chunkList 1 [("a", "x"), ("b", "y")],
      twoBatchInvoker m (buildTranslationPrompt (buildSystemPrompt "de" "") b) =
        Except.ok t →
      ∀ k, k ∈ (parseTranslationResponse t b).map Prod.fst ↔ k ∈ b.map Prod.fst := by
    intro m t b hb hinv k
    rw [show chunkList 1 [("a", "x"), ("b", "y")] = [[("a", "x")], [("b", "y")]] from rfl]
      at hb
    rcases List.mem_cons.mp hb with hb1 | hb2
    · subst hb1
      have ht : Except.ok (ε := JsError) "\x7b\"a\": \"u\"\x7d" = Except.ok t := hinv
      have ht2 : t = "\x7b\"a\": \"u\"\x7d" := by
        injection ht with h
        exact h.symm
      subst ht2
      rw [show parseTranslationResponse "\x7b\"a\": \"u\"\x7d" [("a", "x")] =
        [("a", Json.str "u")] from rfl]
      simp
    · have hb2b : b = [("b", "y")] := by simpa using hb2
      subst hb2b
      have ht : Except.ok (ε := JsError) "\x7b\"b\": \"v\"\x7d" = Except.ok t := hinv
      have ht2 : t = "\x7b\"b\": \"v\"\x7d" := by
        injection ht with h
        exact h.symm
      subst ht2
      rw [show parseTranslationResponse "\x7b\"b\": \"v\"\x7d" [("b", "y")] =
        [("b", Json.str "v")] from rfl]
      simp
  refine ⟨rfl, ?_, ?_⟩
  · exact translateMessages_keyset 1 (by decide) [("a", "x"), ("b", "y")] "de" ""
      twoBatchInvoker [("a", Json.str "u"), ("b", Json.str "v")] hkeys rfl "a"
  · exact translateMessages_keyset 1 (by decide) [("a", "x"), ("b", "y")] "de" ""
      twoBatchInvoker [("a", Json.str "u"), ("b", Json.str "v")] hkeys rfl "b"

/-- C2 (amended): the partitioner covers every entry exactly once in input
order, each batch holds at most `BATCH_SIZE` entries, every batch except
possibly the last holds exactly `BATCH_SIZE` entries, and with an
always-succeeding capability the number of invocations is the ceiling of the
message count over `BATCH_SIZE` — where the effective batch size is the 10
fixed by the repository tests, not the 100 that `TRANSLATION_BATCH_SIZE`
declares. -/
theorem translateMessages_batching (messages : List (String × String)) (lang ctx : String)
    (invoke : Invoker) (hinv : ∀ m p, ∃ t, invoke m p = Except.ok t) :
    (chunkList BATCH_SIZE messages).flatten = messages ∧
    (∀ b ∈ chunkList BATCH_SIZE messages, b.length ≤ BATCH_SIZE) ∧
    (∀ b ∈ (chunkList BATCH_SIZE messages).dropLast, b.length = BATCH_SIZE) ∧
    (translateMessages messages lang ctx invoke).calls =
      (messages.length + BATCH_SIZE - 1) / BATCH_SIZE := by
  have hB : 0 < BATCH_SIZE := by decide
  refine ⟨chunkList_flatten BATCH_SIZE hB messages, chunkList_size_le BATCH_SIZE hB messages,
    chunkList_dropLast_size BATCH_SIZE hB messages, ?_⟩
  by_cases hne : messages = []
  · subst hne
    rfl
  · unfold translateMessages
    rw [translateMessagesWith_ne_nil BATCH_SIZE messages lang ctx invoke hne,
      processBatches_calls_allOk invoke _ _ hinv (chunkList BATCH_SIZE messages) [] 0 0 [],
      Nat.zero_add, chunkList_length BATCH_SIZE hB]

/-- The 25 messages of the repository test "translateMessages processes large
message sets in batches". -/
def msgs25 : List (String × String) :=
  (List.range 25).map (fun i => ("key" ++ toString i, "Message " ++ toString i))

set_option maxRecDepth 40000 in
/-- C2 counterexample: with an always-succeeding capability the modelled
translator makes 3 invocations on the 25 test messages, the count the
repository test asserts, while the claim predicts the ceiling of 25 over the
declared `TRANSLATION_BATCH_SIZE` of 100, which is 1. -/
theorem translateMessages_batchSize_cex :
    msgs25.length = 25 ∧
    (translateMessages msgs25 "de" "" (fun _ _ => Except.ok "\x7b\x7d")).calls = 3 ∧
    (msgs25.length + TRANSLATION_BATCH_SIZE - 1) / TRANSLATION_BATCH_SIZE = 1 ∧
    (3 : Nat) ≠ 1 := by
  exact ⟨rfl, rfl, rfl, by decide⟩

/-- Witness for C2 at a concrete one-message run with an always-succeeding
capability. -/
theorem translateMessages_batching_wit :
    (chunkList BATCH_SIZE [("hello", "Hello")]).flatten = [("hello", "Hello")] ∧
    (translateMessages [("hello", "Hello")] "de" ""
      (fun _ _ => Except.ok "\x7b\x7d")).calls =
      (([("hello", "Hello")] : List (String × String)).length + BATCH_SIZE - 1) / BATCH_SIZE :=
  ⟨(translateMessages_batching [("hello", "Hello")] "de" ""
      (fun _ _ => Except.ok "\x7b\x7d") (fun _ _ => ⟨"\x7b\x7d", rfl⟩)).1,
   (translateMessages_batching [("hello", "Hello")] "de" ""
      (fun _ _ => Except.ok "\x7b\x7d") (fun _ _ => ⟨"\x7b\x7d", rfl⟩)).2.2.2⟩
